import Mathlib

/-!
Verification of the byte-level escape-sequence classifier of
claude-unfocused (src/main.go).

The classifier (`inputFilter`) consumes one input byte at a time and emits
zero or more output events: forwarded byte groups, a suspend signal, or a
quit signal.  Its persistent state is a pending buffer of not-yet-resolved
escape-sequence bytes plus a single disambiguation timer.  In this shallow
embedding bytes are `Nat`, the Go channel sends become an explicit list of
emitted events returned by each operation, and the `*time.Timer` /
`timerChan` pair is abstracted to a single `armed : Bool` flag (the timer
is armed iff `timer != nil` in the Go code; firing is modelled by an
explicit `handleTimeout` step).
-/

/-- The ESC byte 0x1b (Go constant `esc`). -/
def esc : Nat := 0x1b

/-- The suspend control byte 0x1a, Ctrl-Z (Go constant `ctrlZ`). -/
def ctrlZ : Nat := 0x1a

/-- The quit control byte 0x1c, Ctrl-Backslash (Go constant `ctrlBackslash`). -/
def ctrlBackslash : Nat := 0x1c

/-- The byte 0x5b, the character left bracket used to introduce CSI sequences. -/
def lbracket : Nat := 0x5b

/-- The byte 0x49, the character I of a focus-in event. -/
def byteI : Nat := 0x49

/-- The byte 0x4f, the character O of a focus-out event. -/
def byteO : Nat := 0x4f

/-- One output event of the classifier, mirroring Go `inputEvent`: either a
group of forwarded data bytes, a suspend signal, or a quit signal. -/
inductive Event where
  | forward (data : List Nat)
  | suspend
  | quit
deriving DecidableEq, Repr

/-- The classifier state, mirroring Go `inputFilter`: `pending` is the
buffered escape-sequence prefix, `armed` abstracts the timer field
(`armed = true` iff `timer != nil`).  The Go `output` channel field is not
state; emissions are returned explicitly. -/
structure inputFilter where
  pending : List Nat
  armed : Bool
deriving DecidableEq, Repr

/-- Go `newInputFilter`: fresh classifier with nil pending buffer and no timer. -/
def newInputFilter : inputFilter := { pending := [], armed := false }

/-- Go `startTimer`: arm the timeout timer. -/
def startTimer (f : inputFilter) : inputFilter := { f with armed := true }

/-- Go `stopTimer`: cancel the timer if armed. -/
def stopTimer (f : inputFilter) : inputFilter := { f with armed := false }

/-- Go `flush`: stop the timer, then emit any non-empty pending buffer
verbatim as a single forward event and clear it. -/
def flush (f : inputFilter) : inputFilter × List Event :=
  let g := stopTimer f
  if 0 < g.pending.length then
    ({ g with pending := [] }, [Event.forward g.pending])
  else
    (g, [])

/-- Go `processByte`: the classifier step on one input byte.  Control
characters are checked first; otherwise dispatch on the pending buffer.
Returns the new state and the events emitted, in emission order. -/
def processByte (f : inputFilter) (b : Nat) : inputFilter × List Event :=
  if b = ctrlZ then
    let r := flush f
    (r.1, r.2 ++ [Event.suspend])
  else if b = ctrlBackslash then
    let r := flush f
    (r.1, r.2 ++ [Event.quit])
  else if f.pending.length = 0 then
    if b = esc then
      (startTimer { f with pending := f.pending ++ [b] }, [])
    else
      (f, [Event.forward [b]])
  else
    let g := stopTimer f
    if g.pending.length = 1 ∧ g.pending.headD 0 = esc then
      if b = lbracket then
        (startTimer { g with pending := g.pending ++ [b] }, [])
      else if b = esc then
        (startTimer { g with pending := [esc] }, [Event.forward [esc]])
      else
        ({ g with pending := [] }, [Event.forward [esc, b]])
    else if g.pending.length = 2 ∧ g.pending.headD 0 = esc ∧
        (g.pending.drop 1).headD 0 = lbracket then
      if b = byteI ∨ b = byteO then
        ({ g with pending := [] }, [])
      else if b = esc then
        (startTimer { g with pending := [esc] }, [Event.forward [esc, lbracket]])
      else
        ({ g with pending := [] }, [Event.forward [esc, lbracket, b]])
    else
      (g, [])

/-- Go `handleTimeout`: on timer expiry, flush the pending buffer. -/
def handleTimeout (f : inputFilter) : inputFilter × List Event :=
  flush f

/-- Feed a list of bytes one at a time through the classifier, collecting
all emitted events in order (the input pump of the I/O relay). -/
def run (f : inputFilter) : List Nat → inputFilter × List Event
  | [] => (f, [])
  | b :: bs =>
    let r1 := processByte f b
    let r2 := run r1.1 bs
    (r2.1, r1.2 ++ r2.2)

/-- The bytes carried by the forward events of an event list, concatenated
in order: exactly what the relay writes to the child. -/
def forwardData : List Event → List Nat
  | [] => []
  | Event.forward d :: rest => d ++ forwardData rest
  | Event.suspend :: rest => forwardData rest
  | Event.quit :: rest => forwardData rest

/-- Feed a byte list to a classifier, then fire the timeout once; return
all bytes forwarded to the child over the whole interaction. -/
def runThenFlush (f : inputFilter) (bs : List Nat) : List Nat :=
  let r := run f bs
  let t := handleTimeout r.1
  forwardData (r.2 ++ t.2)

/-- One externally visible classifier step: either a byte arrives or the
armed timer fires. -/
inductive Step where
  | byte (b : Nat)
  | timeout
deriving DecidableEq, Repr

/-- Run the classifier over an interleaving of byte arrivals and timeout
firings, collecting all emitted events in order. -/
def runSteps (f : inputFilter) : List Step → inputFilter × List Event
  | [] => (f, [])
  | Step.byte b :: rest =>
    let r1 := processByte f b
    let r2 := runSteps r1.1 rest
    (r2.1, r1.2 ++ r2.2)
  | Step.timeout :: rest =>
    let r1 := handleTimeout f
    let r2 := runSteps r1.1 rest
    (r2.1, r1.2 ++ r2.2)

/-- The classifier states reachable from a fresh classifier by any
sequence of `processByte` and `handleTimeout` calls. -/
inductive Reachable : inputFilter → Prop where
  | init : Reachable newInputFilter
  | step (b : Nat) {f : inputFilter} : Reachable f → Reachable (processByte f b).1
  | fire {f : inputFilter} : Reachable f → Reachable (handleTimeout f).1

/-- Modelled from the spec sentence for claim C1: the input sequence with
every focus-event triple (ESC, left bracket, I or O) removed by a
left-to-right scan, all remaining bytes unchanged and in order. -/
def removeFocus : List Nat → List Nat
  | b :: c :: d :: rest =>
    if b = esc ∧ c = lbracket ∧ (d = byteI ∨ d = byteO) then
      removeFocus rest
    else
      b :: removeFocus (c :: d :: rest)
  | l => l

/-! Equation lemmas for `processByte` on the three well-formed pending
buffer shapes, one per branch of the Go dispatch. -/

lemma pb_empty_esc (a : Bool) :
    processByte ⟨[], a⟩ esc = (⟨[esc], true⟩, []) := by
  simp [processByte, startTimer, esc, ctrlZ, ctrlBackslash]

lemma pb_empty_other {b : Nat} (hz : b ≠ ctrlZ) (hq : b ≠ ctrlBackslash)
    (he : b ≠ esc) (a : Bool) :
    processByte ⟨[], a⟩ b = (⟨[], a⟩, [Event.forward [b]]) := by
  simp [processByte, hz, hq, he]

lemma pb_esc_lbracket (a : Bool) :
    processByte ⟨[esc], a⟩ lbracket = (⟨[esc, lbracket], true⟩, []) := by
  simp [processByte, startTimer, stopTimer, esc, ctrlZ, ctrlBackslash, lbracket]

lemma pb_esc_esc (a : Bool) :
    processByte ⟨[esc], a⟩ esc = (⟨[esc], true⟩, [Event.forward [esc]]) := by
  simp [processByte, startTimer, stopTimer, esc, ctrlZ, ctrlBackslash, lbracket]

lemma pb_esc_other {b : Nat} (hz : b ≠ ctrlZ) (hq : b ≠ ctrlBackslash)
    (he : b ≠ esc) (hl : b ≠ lbracket) (a : Bool) :
    processByte ⟨[esc], a⟩ b = (⟨[], false⟩, [Event.forward [esc, b]]) := by
  simp only [esc, ctrlZ, ctrlBackslash, lbracket] at hz hq he hl
  simp [processByte, stopTimer, hz, hq, he, hl, esc, ctrlZ, ctrlBackslash, lbracket]

lemma pb_csi_focus {b : Nat} (hf : b = byteI ∨ b = byteO) (a : Bool) :
    processByte ⟨[esc, lbracket], a⟩ b = (⟨[], false⟩, []) := by
  rcases hf with h | h <;> subst h <;>
    simp [processByte, stopTimer, esc, ctrlZ, ctrlBackslash, lbracket, byteI, byteO]

lemma pb_csi_esc (a : Bool) :
    processByte ⟨[esc, lbracket], a⟩ esc =
      (⟨[esc], true⟩, [Event.forward [esc, lbracket]]) := by
  simp [processByte, startTimer, stopTimer, esc, ctrlZ, ctrlBackslash, lbracket, byteI, byteO]

lemma pb_csi_other {b : Nat} (hz : b ≠ ctrlZ) (hq : b ≠ ctrlBackslash)
    (he : b ≠ esc) (hi : b ≠ byteI) (ho : b ≠ byteO) (a : Bool) :
    processByte ⟨[esc, lbracket], a⟩ b =
      (⟨[], false⟩, [Event.forward [esc, lbracket, b]]) := by
  simp only [esc, ctrlZ, ctrlBackslash, byteI, byteO] at hz hq he hi ho
  simp [processByte, stopTimer, hz, hq, he, hi, ho, esc, ctrlZ, ctrlBackslash,
    lbracket, byteI, byteO]

/-! Equation lemmas for the spec-side scan `removeFocus`. -/

lemma rf_nil : removeFocus [] = [] := rfl

lemma rf_one (b : Nat) : removeFocus [b] = [b] := rfl

lemma rf_two (b c : Nat) : removeFocus [b, c] = [b, c] := rfl

lemma rf_focus {d : Nat} (hf : d = byteI ∨ d = byteO) (rest : List Nat) :
    removeFocus (esc :: lbracket :: d :: rest) = removeFocus rest := by
  rcases hf with h | h <;> subst h <;> simp [removeFocus]

lemma rf_cons_ne {b : Nat} (he : b ≠ esc) (bs : List Nat) :
    removeFocus (b :: bs) = b :: removeFocus bs := by
  match bs with
  | [] => rfl
  | [c] => rfl
  | c :: d :: rest => simp [removeFocus, he]

lemma rf_esc_not_lb {c : Nat} (hl : c ≠ lbracket) (d : Nat) (rest : List Nat) :
    removeFocus (esc :: c :: d :: rest) = esc :: removeFocus (c :: d :: rest) := by
  simp [removeFocus, hl]

lemma rf_esc_lb_not_focus {d : Nat} (hi : d ≠ byteI) (ho : d ≠ byteO)
    (rest : List Nat) :
    removeFocus (esc :: lbracket :: d :: rest) =
      esc :: removeFocus (lbracket :: d :: rest) := by
  simp [removeFocus, hi, ho]

/-! Structural lemmas for the run functions. -/

lemma forwardData_append (l1 l2 : List Event) :
    forwardData (l1 ++ l2) = forwardData l1 ++ forwardData l2 := by
  induction l1 with
  | nil => rfl
  | cons e rest ih =>
    cases e <;> simp [forwardData, ih]

lemma runThenFlush_cons (f : inputFilter) (b : Nat) (bs : List Nat) :
    runThenFlush f (b :: bs) =
      forwardData (processByte f b).2 ++ runThenFlush (processByte f b).1 bs := by
  simp [runThenFlush, run, forwardData_append]

/-- Main simulation lemma: from any of the three well-formed states, the
bytes forwarded by running a control-free byte list and then flushing are
exactly the left-to-right focus-event removal of the pending prefix
followed by that list. -/
lemma runThenFlush_spec (bs : List Nat) : ∀ a : Bool,
    (∀ x ∈ bs, x ≠ ctrlZ ∧ x ≠ ctrlBackslash) →
    runThenFlush ⟨[], a⟩ bs = removeFocus bs ∧
    runThenFlush ⟨[esc], a⟩ bs = removeFocus (esc :: bs) ∧
    runThenFlush ⟨[esc, lbracket], a⟩ bs = removeFocus (esc :: lbracket :: bs) := by
  induction bs with
  | nil =>
    intro a _
    cases a <;> exact ⟨by decide, by decide, by decide⟩
  | cons b bs ih =>
    intro a hbs
    obtain ⟨hz, hq⟩ := hbs b (List.mem_cons_self b bs)
    have hbs' : ∀ x ∈ bs, x ≠ ctrlZ ∧ x ≠ ctrlBackslash :=
      fun x hx => hbs x (List.mem_cons_of_mem b hx)
    refine ⟨?_, ?_, ?_⟩
    · by_cases he : b = esc
      · subst he
        rw [runThenFlush_cons, pb_empty_esc]
        simpa [forwardData] using (ih true hbs').2.1
      · rw [runThenFlush_cons, pb_empty_other hz hq he, rf_cons_ne he]
        simpa [forwardData] using (ih a hbs').1
    · by_cases hl : b = lbracket
      · subst hl
        rw [runThenFlush_cons, pb_esc_lbracket]
        simpa [forwardData] using (ih true hbs').2.2
      · by_cases he : b = esc
        · subst he
          rw [runThenFlush_cons, pb_esc_esc]
          cases bs with
          | nil =>
            simp [forwardData, rf_one, rf_two, runThenFlush, run, handleTimeout,
              flush, stopTimer]
          | cons d rest =>
            rw [rf_esc_not_lb (by decide) d rest]
            simpa [forwardData] using (ih true hbs').2.1
        · rw [runThenFlush_cons, pb_esc_other hz hq he hl]
          cases bs with
          | nil =>
            simp [forwardData, rf_one, rf_two, runThenFlush, run, handleTimeout,
              flush, stopTimer]
          | cons d rest =>
            rw [rf_esc_not_lb hl d rest, rf_cons_ne he]
            simpa [forwardData] using (ih false hbs').1
    · by_cases hf : b = byteI ∨ b = byteO
      · rw [runThenFlush_cons, pb_csi_focus hf, rf_focus hf]
        simpa [forwardData] using (ih false hbs').1
      · push_neg at hf
        obtain ⟨hi, ho⟩ := hf
        by_cases he : b = esc
        · subst he
          rw [runThenFlush_cons, pb_csi_esc, rf_esc_lb_not_focus hi ho,
            rf_cons_ne (by decide : lbracket ≠ esc)]
          simpa [forwardData] using (ih true hbs').2.1
        · rw [runThenFlush_cons, pb_csi_other hz hq he hi ho,
            rf_esc_lb_not_focus hi ho, rf_cons_ne (by decide : lbracket ≠ esc),
            rf_cons_ne he]
          simpa [forwardData] using (ih false hbs').1

/-- The combined state invariant: the pending buffer is one of the three
legal shapes, and the timer is armed exactly when it is non-empty. -/
def stateInv (f : inputFilter) : Prop :=
  (f.pending = [] ∧ f.armed = false) ∨
  (f.pending = [esc] ∧ f.armed = true) ∨
  (f.pending = [esc, lbracket] ∧ f.armed = true)

lemma flush_fst (f : inputFilter) : (flush f).1 = ⟨[], false⟩ := by
  rcases f with ⟨p, a⟩
  cases p <;> simp [flush, stopTimer]

lemma processByte_inv (b : Nat) {f : inputFilter} (h : stateInv f) :
    stateInv (processByte f b).1 := by
  rcases h with ⟨hp, ha⟩ | ⟨hp, ha⟩ | ⟨hp, ha⟩
  · have hf : f = ⟨[], false⟩ := by cases f; simp_all
    subst hf
    simp only [processByte, flush, startTimer, stopTimer]
    split_ifs <;> simp_all [stateInv]
  · have hf : f = ⟨[esc], true⟩ := by cases f; simp_all
    subst hf
    simp only [processByte, flush, startTimer, stopTimer]
    split_ifs <;> simp_all [stateInv]
  · have hf : f = ⟨[esc, lbracket], true⟩ := by cases f; simp_all
    subst hf
    simp only [processByte, flush, startTimer, stopTimer]
    split_ifs <;> simp_all [stateInv]

lemma reachable_inv {f : inputFilter} (h : Reachable f) : stateInv f := by
  induction h with
  | init => exact Or.inl ⟨rfl, rfl⟩
  | step b _ ih => exact processByte_inv b ih
  | fire _ _ =>
    rw [handleTimeout, flush_fst]
    exact Or.inl ⟨rfl, rfl⟩

/-- C1: for every input byte sequence containing neither the suspend code
0x1a nor the quit code 0x1c, feeding the bytes one at a time to a fresh
classifier and then firing the timeout once forwards exactly the input with
every focus-event triple (ESC, left bracket, I or O, matched left to right)
removed, all remaining bytes unchanged and in their original order. -/
theorem c1_focus_removal (bs : List Nat)
    (h : ∀ x ∈ bs, x ≠ ctrlZ ∧ x ≠ ctrlBackslash) :
    runThenFlush newInputFilter bs = removeFocus bs :=
  (runThenFlush_spec bs false h).1

/-- C1 witness: the input 0x61, ESC, left bracket, I, 0x62 forwards exactly
0x61 then 0x62. -/
theorem c1_focus_removal_witness :
    runThenFlush newInputFilter [0x61, esc, lbracket, byteI, 0x62] = [0x61, 0x62] :=
  (c1_focus_removal [0x61, esc, lbracket, byteI, 0x62] (by decide)).trans (by decide)

/-- C2: on the suspend code 0x1a or the quit code 0x1c, from any classifier
state, the classifier first emits any non-empty pending buffer unchanged as
a single forward event with the timer cancelled, then emits the suspend or
quit signal; in particular 0x1a while ESC, left bracket is pending emits a
forward event with exactly those two bytes followed by the suspend event. -/
theorem c2_control_flush_then_signal (f : inputFilter) :
    processByte f ctrlZ =
      (⟨[], false⟩,
        (if f.pending.length = 0 then [] else [Event.forward f.pending])
          ++ [Event.suspend]) ∧
    processByte f ctrlBackslash =
      (⟨[], false⟩,
        (if f.pending.length = 0 then [] else [Event.forward f.pending])
          ++ [Event.quit]) ∧
    processByte ⟨[esc, lbracket], true⟩ ctrlZ =
      (⟨[], false⟩, [Event.forward [esc, lbracket], Event.suspend]) := by
  refine ⟨?_, ?_, by decide⟩ <;>
  · rcases f with ⟨p, a⟩
    cases p <;> simp [processByte, flush, stopTimer, ctrlZ, ctrlBackslash]

/-- C3: a single ESC byte on a fresh classifier emits nothing and leaves
pending buffer ESC with the timer armed; firing the timeout then emits
exactly one forward event with the single ESC byte and clears the state;
in general the timeout forwards any non-empty pending buffer verbatim as a
single event and clears it, leaving the timer unarmed. -/
theorem c3_lone_esc_timeout :
    processByte newInputFilter esc = (⟨[esc], true⟩, []) ∧
    handleTimeout ⟨[esc], true⟩ = (⟨[], false⟩, [Event.forward [esc]]) ∧
    ∀ f : inputFilter, f.pending ≠ [] →
      handleTimeout f = (⟨[], false⟩, [Event.forward f.pending]) := by
  refine ⟨by decide, by decide, ?_⟩
  intro f hne
  rcases f with ⟨p, a⟩
  cases p with
  | nil => exact absurd rfl hne
  | cons x xs => simp [handleTimeout, flush, stopTimer]

/-- C3 witness: the timeout on pending buffer ESC forwards it verbatim. -/
theorem c3_lone_esc_timeout_witness :
    (⟨[esc], true⟩ : inputFilter).pending ≠ [] ∧
    handleTimeout ⟨[esc], true⟩ = (⟨[], false⟩, [Event.forward [esc]]) :=
  ⟨by decide, c3_lone_esc_timeout.2.2 ⟨[esc], true⟩ (by decide)⟩

/-- C4: in every state reachable from a fresh classifier by `processByte`
and `handleTimeout` calls, the pending buffer is empty, the single byte
ESC, or exactly ESC followed by the left bracket. -/
theorem c4_pending_wellformed {f : inputFilter} (h : Reachable f) :
    f.pending = [] ∨ f.pending = [esc] ∨ f.pending = [esc, lbracket] := by
  rcases reachable_inv h with ⟨hp, _⟩ | ⟨hp, _⟩ | ⟨hp, _⟩
  · exact Or.inl hp
  · exact Or.inr (Or.inl hp)
  · exact Or.inr (Or.inr hp)

/-- C4 witness: the well-formedness disjunction at the state reached by
processing a single ESC byte. -/
theorem c4_pending_wellformed_witness :
    (processByte newInputFilter esc).1.pending = [] ∨
    (processByte newInputFilter esc).1.pending = [esc] ∨
    (processByte newInputFilter esc).1.pending = [esc, lbracket] :=
  c4_pending_wellformed (Reachable.step esc Reachable.init)

/-- C5: in every reachable classifier state the timer is armed exactly when
the pending buffer is non-empty, so a fresh arming never happens while an
old timer for the same pending sequence is still outstanding. -/
theorem c5_timer_iff_pending {f : inputFilter} (h : Reachable f) :
    f.pending ≠ [] ↔ f.armed = true := by
  rcases reachable_inv h with ⟨hp, ha⟩ | ⟨hp, ha⟩ | ⟨hp, ha⟩ <;>
    rw [hp, ha] <;> simp

/-- C5 witness: the timer-pending correspondence at the state reached by
processing a single ESC byte. -/
theorem c5_timer_iff_pending_witness :
    (processByte newInputFilter esc).1.pending ≠ [] ↔
      (processByte newInputFilter esc).1.armed = true :=
  c5_timer_iff_pending (Reachable.step esc Reachable.init)

/-- C6 counterexample: the singleton sequence 0x1a contains no ESC byte,
yet a fresh classifier does not forward it — it is converted to a suspend
signal, so the forwarded bytes are empty rather than the input. -/
theorem c6_counterexample :
    esc ∉ [ctrlZ] ∧ forwardData (run newInputFilter [ctrlZ]).2 ≠ [ctrlZ] := by
  decide

/-- C6 amended: for byte sequences containing none of ESC, 0x1a and 0x1c,
a fresh classifier forwards every byte unchanged and in order, each as its
own immediate forward event, with the pending buffer staying empty. -/
theorem c6_plain_passthrough (bs : List Nat)
    (h : ∀ x ∈ bs, x ≠ esc ∧ x ≠ ctrlZ ∧ x ≠ ctrlBackslash) :
    run newInputFilter bs =
      (newInputFilter, bs.map fun b => Event.forward [b]) := by
  induction bs with
  | nil => rfl
  | cons b bs ih =>
    obtain ⟨he, hz, hq⟩ := h b (List.mem_cons_self b bs)
    have h' := fun x hx => h x (List.mem_cons_of_mem b hx)
    have hpb : processByte newInputFilter b = (newInputFilter, [Event.forward [b]]) :=
      pb_empty_other hz hq he false
    simp [run, hpb, ih h']

/-- C6 amended witness: two ordinary bytes pass through unchanged. -/
theorem c6_plain_passthrough_witness :
    run newInputFilter [0x61, 0x62] =
      (newInputFilter, List.map (fun b => Event.forward [b]) [0x61, 0x62]) :=
  c6_plain_passthrough [0x61, 0x62] (by decide)

/-- C7: from a fresh classifier, ESC then left bracket then any byte X
outside I, O, ESC and the control codes yields exactly one forward event
with the three original bytes in order, ending with empty pending buffer
and no armed timer. -/
theorem c7_csi_passthrough (x : Nat) (hi : x ≠ byteI) (ho : x ≠ byteO)
    (he : x ≠ esc) (hz : x ≠ ctrlZ) (hq : x ≠ ctrlBackslash) :
    run newInputFilter [esc, lbracket, x] =
      (newInputFilter, [Event.forward [esc, lbracket, x]]) := by
  simp [run, newInputFilter, pb_empty_esc, pb_esc_lbracket,
    pb_csi_other hz hq he hi ho]

/-- C7 witness: the CSI sequence ESC, left bracket, 0x78 passes through as
one three-byte forward event. -/
theorem c7_csi_passthrough_witness :
    run newInputFilter [esc, lbracket, 0x78] =
      (newInputFilter, [Event.forward [esc, lbracket, 0x78]]) :=
  c7_csi_passthrough 0x78 (by decide) (by decide) (by decide) (by decide) (by decide)

/-- C8: from a fresh classifier, ESC followed by ESC emits exactly one
forward event with only the first ESC, leaving the second ESC pending with
the timer armed; the subsequent timeout emits the second ESC as its own
separate single-byte forward event, so the two are never merged. -/
theorem c8_double_esc :
    run newInputFilter [esc, esc] = (⟨[esc], true⟩, [Event.forward [esc]]) ∧
    handleTimeout ⟨[esc], true⟩ = (⟨[], false⟩, [Event.forward [esc]]) := by
  decide

/-- C9: the classifier is deterministic — two fresh classifiers fed the
same interleaving of byte arrivals and timeout firings produce identical
event sequences and end in identical states. -/
theorem c9_deterministic (s t : List Step) (h : s = t) :
    runSteps newInputFilter s = runSteps newInputFilter t := by
  rw [h]

/-- C9 witness: replaying the stream ESC then timeout yields the same
output both times. -/
theorem c9_deterministic_witness :
    runSteps newInputFilter [Step.byte esc, Step.timeout] =
      runSteps newInputFilter [Step.byte esc, Step.timeout] :=
  c9_deterministic [Step.byte esc, Step.timeout] [Step.byte esc, Step.timeout] rfl

/-- The guard of the implicit fall-through at the end of Go `processByte`:
the byte is not a control code, the pending buffer is non-empty, and yet it
matches neither dispatch pattern — there the Go code would return having
neither emitted, buffered, nor signalled, silently dropping the byte. -/
def fallThrough (f : inputFilter) (b : Nat) : Prop :=
  b ≠ ctrlZ ∧ b ≠ ctrlBackslash ∧ f.pending.length ≠ 0 ∧
  ¬(f.pending.length = 1 ∧ f.pending.headD 0 = esc) ∧
  ¬(f.pending.length = 2 ∧ f.pending.headD 0 = esc ∧
    (f.pending.drop 1).headD 0 = lbracket)

/-- C10: from every reachable classifier state the dispatch of
`processByte` is exhaustive — the silent fall-through is unreachable, and
every processed byte is forwarded, buffered into the pending sequence,
converted to a control signal, or deliberately swallowed as the final byte
of a focus event. -/
theorem c10_no_silent_drop {f : inputFilter} (h : Reachable f) (b : Nat) :
    ¬ fallThrough f b ∧
    (Event.suspend ∈ (processByte f b).2 ∨ Event.quit ∈ (processByte f b).2 ∨
     b ∈ forwardData (processByte f b).2 ∨ b ∈ (processByte f b).1.pending ∨
     (f.pending = [esc, lbracket] ∧ (b = byteI ∨ b = byteO))) := by
  rcases reachable_inv h with ⟨hp, ha⟩ | ⟨hp, ha⟩ | ⟨hp, ha⟩
  · have hf : f = ⟨[], false⟩ := by cases f; simp_all
    subst hf
    refine ⟨by simp [fallThrough], ?_⟩
    by_cases hz : b = ctrlZ
    · subst hz; exact Or.inl (by decide)
    · by_cases hq : b = ctrlBackslash
      · subst hq; exact Or.inr (Or.inl (by decide))
      · by_cases he : b = esc
        · subst he
          exact Or.inr (Or.inr (Or.inr (Or.inl (by decide))))
        · rw [pb_empty_other hz hq he]
          exact Or.inr (Or.inr (Or.inl (by simp [forwardData])))
  · have hf : f = ⟨[esc], true⟩ := by cases f; simp_all
    subst hf
    refine ⟨by simp [fallThrough], ?_⟩
    by_cases hz : b = ctrlZ
    · subst hz; exact Or.inl (by decide)
    · by_cases hq : b = ctrlBackslash
      · subst hq; exact Or.inr (Or.inl (by decide))
      · by_cases he : b = esc
        · subst he
          exact Or.inr (Or.inr (Or.inr (Or.inl (by decide))))
        · by_cases hl : b = lbracket
          · subst hl
            exact Or.inr (Or.inr (Or.inr (Or.inl (by decide))))
          · rw [pb_esc_other hz hq he hl]
            exact Or.inr (Or.inr (Or.inl (by simp [forwardData])))
  · have hf : f = ⟨[esc, lbracket], true⟩ := by cases f; simp_all
    subst hf
    refine ⟨by simp [fallThrough], ?_⟩
    by_cases hz : b = ctrlZ
    · subst hz; exact Or.inl (by decide)
    · by_cases hq : b = ctrlBackslash
      · subst hq; exact Or.inr (Or.inl (by decide))
      · by_cases hfo : b = byteI ∨ b = byteO
        · exact Or.inr (Or.inr (Or.inr (Or.inr ⟨rfl, hfo⟩)))
        · push_neg at hfo
          obtain ⟨hi, ho⟩ := hfo
          by_cases he : b = esc
          · subst he
            exact Or.inr (Or.inr (Or.inr (Or.inl (by decide))))
          · rw [pb_csi_other hz hq he hi ho]
            exact Or.inr (Or.inr (Or.inl (by simp [forwardData])))

/-- C10 witness: exhaustive dispatch at a fresh classifier on the byte
0x61. -/
theorem c10_no_silent_drop_witness :
    ¬ fallThrough newInputFilter 0x61 ∧
    (Event.suspend ∈ (processByte newInputFilter 0x61).2 ∨
     Event.quit ∈ (processByte newInputFilter 0x61).2 ∨
     0x61 ∈ forwardData (processByte newInputFilter 0x61).2 ∨
     0x61 ∈ (processByte newInputFilter 0x61).1.pending ∨
     (newInputFilter.pending = [esc, lbracket] ∧ (0x61 = byteI ∨ 0x61 = byteO))) :=
  c10_no_silent_drop Reachable.init 0x61

